import Mathlib

/-!
Verification of the escaping engine and template emission of the
`format_xml` repository, shallowly embedded over `List Char`.

Strings are modelled as `List Char`.  All the needles the escapers look
for (`<`, `&`, `>`, the apostrophe, the double quote, `--`, `]]>`) are
single-byte ASCII characters which, in UTF-8, can never occur inside a
multi-byte sequence, so the byte-level scans of `src/escape.rs` coincide
with character-level scans; the embedding therefore works per character.
-/

namespace FormatXml

/-- The apostrophe character `'`, written by code point to keep the sources readable. -/
def apos : Char := Char.ofNat 39

/-- The double-quote character, written by code point to keep the sources readable. -/
def quot : Char := Char.ofNat 34

/-- Embeds `split_text` from `src/escape.rs`: the index of the first one of
`<`, `&`, `>`; returns the length of the input when none is found. -/
def split_text : List Char → Nat
  | [] => 0
  | c :: rest => if c = '<' ∨ c = '&' ∨ c = '>' then 0 else split_text rest + 1

/-- Embeds `split_attr` from `src/escape.rs`: the index of the first one of
`<`, `&`, `>`, `'`, `"`; returns the length of the input when none is found. -/
def split_attr : List Char → Nat
  | [] => 0
  | c :: rest =>
    if c = '<' ∨ c = '&' ∨ c = '>' ∨ c = apos ∨ c = quot then 0 else split_attr rest + 1

/-- Embeds `escape_chr` from `src/escape.rs`: the entity written for an escaped
character, and nothing when `chr` is not one of `<`, `&`, `>`, `'`, `"`. -/
def escape_chr (chr : Char) : List Char :=
  if chr = '<' then "&lt;".data
  else if chr = '&' then "&amp;".data
  else if chr = '>' then "&gt;".data
  else if chr = apos then "&apos;".data
  else if chr = quot then "&quot;".data
  else []

/-- Embeds `EscapeText::write_str` from `src/escape.rs`: repeatedly copy the
prefix up to the next `<`, `&` or `>` verbatim, write that character through
`escape_chr`, and continue after it. -/
def escapeTextWrite (s : List Char) : List Char :=
  if h : s = [] then []
  else
    match s[split_text s]? with
    | some chr => s.take (split_text s) ++ escape_chr chr ++ escapeTextWrite (s.drop (split_text s + 1))
    | none => s.take (split_text s)
termination_by s.length
decreasing_by
  have hpos : 0 < s.length := List.length_pos.mpr h
  simp only [List.length_drop]
  omega

/-- Embeds `EscapeAttrValue::write_str` from `src/escape.rs`: the same loop as
`EscapeText::write_str` but splitting at `split_attr`. -/
def escapeAttrWrite (s : List Char) : List Char :=
  if h : s = [] then []
  else
    match s[split_attr s]? with
    | some chr => s.take (split_attr s) ++ escape_chr chr ++ escapeAttrWrite (s.drop (split_attr s + 1))
    | none => s.take (split_attr s)
termination_by s.length
decreasing_by
  have hpos : 0 < s.length := List.length_pos.mpr h
  simp only [List.length_drop]
  omega

/-- Embeds `EscapeComment::write_str` from `src/escape.rs`, which writes every
piece of `s.split("--")` back to back: equivalently, a left-to-right scan that
drops each leftmost non-overlapping occurrence of `--` and copies every other
character. -/
def escapeCommentWrite : List Char → List Char
  | c1 :: c2 :: rest =>
    if c1 = '-' ∧ c2 = '-' then escapeCommentWrite rest
    else c1 :: escapeCommentWrite (c2 :: rest)
  | [c] => [c]
  | [] => []

/-- The replacement `EscapeCharData::write_str` emits between the pieces of
`s.split("]]>")`. -/
def cdataReplacement : List Char := "]]]]><![CDATA[>".data

/-- Embeds `EscapeCharData::write_str` from `src/escape.rs`, which writes the
pieces of `s.split("]]>")` separated by `]]]]><![CDATA[>`: equivalently, a
left-to-right scan replacing each leftmost non-overlapping occurrence of `]]>`
and copying every other character. -/
def escapeCharDataWrite : List Char → List Char
  | c1 :: c2 :: c3 :: rest =>
    if c1 = ']' ∧ c2 = ']' ∧ c3 = '>' then cdataReplacement ++ escapeCharDataWrite rest
    else c1 :: escapeCharDataWrite (c2 :: c3 :: rest)
  | [c1, c2] => [c1, c2]
  | [c] => [c]
  | [] => []

/-- The four escaping contexts of the spec's Escaper component. -/
inductive EscapeContext
  | Text
  | AttributeValue
  | Comment
  | CData
deriving DecidableEq

/-- The escaping engine: `escape ctx s` dispatches to the `write_str`
implementation of the corresponding wrapper in `src/escape.rs`, applied to the
whole of `s` as one unit. -/
def escape : EscapeContext → List Char → List Char
  | .Text, s => escapeTextWrite s
  | .AttributeValue, s => escapeAttrWrite s
  | .Comment, s => escapeCommentWrite s
  | .CData, s => escapeCharDataWrite s

/-- Applies a per-character policy along a string, concatenating the output;
the shape shared by all byte-at-a-time escaping loops in this development. -/
def applyCharPolicy (f : Char → List Char) : List Char → List Char
  | [] => []
  | c :: rest => f c ++ applyCharPolicy f rest

/-- The Text policy as the spec words it: `<` to `&lt;`, `&` to `&amp;`,
`>` to `&gt;`, and every other character unchanged. -/
def textPolicySpec (c : Char) : List Char :=
  if c = '<' then "&lt;".data
  else if c = '&' then "&amp;".data
  else if c = '>' then "&gt;".data
  else [c]

/-- The AttributeValue policy as the spec words it: the Text set plus the
apostrophe to `&apos;` and the double quote to `&quot;`. -/
def attrValuePolicySpec (c : Char) : List Char :=
  if c = '<' then "&lt;".data
  else if c = '&' then "&amp;".data
  else if c = '>' then "&gt;".data
  else if c = apos then "&apos;".data
  else if c = quot then "&quot;".data
  else [c]

theorem escapeTextWrite_nil : escapeTextWrite [] = [] := by
  simp [escapeTextWrite]

theorem escapeTextWrite_cons (c : Char) (rest : List Char) :
    escapeTextWrite (c :: rest) =
      (if c = '<' ∨ c = '&' ∨ c = '>' then escape_chr c else [c]) ++ escapeTextWrite rest := by
  by_cases hc : c = '<' ∨ c = '&' ∨ c = '>'
  · have hs : split_text (c :: rest) = 0 := by simp [split_text, hc]
    rw [escapeTextWrite.eq_def]
    simp [hs, hc]
  · have hs : split_text (c :: rest) = split_text rest + 1 := by simp [split_text, hc]
    rw [escapeTextWrite.eq_def]
    simp only [List.cons_ne_nil, dite_false, hs, List.getElem?_cons_succ,
      List.take_succ_cons, List.drop_succ_cons, if_neg hc]
    cases hr : rest[split_text rest]? with
    | some chr =>
      have hrest : rest ≠ [] := by
        intro h
        subst h
        simp at hr
      conv_rhs => rw [escapeTextWrite.eq_def]
      simp [hrest, hr]
    | none =>
      have hrw : escapeTextWrite rest = rest.take (split_text rest) := by
        cases rest with
        | nil => simp [escapeTextWrite_nil]
        | cons d ds =>
          rw [escapeTextWrite.eq_def]
          simp [hr]
      rw [hrw]
      simp

theorem escapeTextWrite_eq_policy (s : List Char) :
    escapeTextWrite s =
      applyCharPolicy (fun c => if c = '<' ∨ c = '&' ∨ c = '>' then escape_chr c else [c]) s := by
  induction s with
  | nil => simp [escapeTextWrite_nil, applyCharPolicy]
  | cons c rest ih => rw [escapeTextWrite_cons, ih]; simp [applyCharPolicy]

theorem applyCharPolicy_congr (f g : Char → List Char) (h : ∀ c, f c = g c)
    (s : List Char) : applyCharPolicy f s = applyCharPolicy g s := by
  induction s with
  | nil => rfl
  | cons c rest ih => simp [applyCharPolicy, h, ih]

theorem text_needle_eq_policy (c : Char) :
    (if c = '<' ∨ c = '&' ∨ c = '>' then escape_chr c else [c]) = textPolicySpec c := by
  by_cases h1 : c = '<'
  · subst h1; decide
  · by_cases h2 : c = '&'
    · subst h2; decide
    · by_cases h3 : c = '>'
      · subst h3; decide
      · have h : ¬(c = '<' ∨ c = '&' ∨ c = '>') := by tauto
        rw [if_neg h]
        unfold textPolicySpec
        rw [if_neg h1, if_neg h2, if_neg h3]

theorem escape_Text_eq_policy (s : List Char) :
    escape .Text s = applyCharPolicy textPolicySpec s := by
  show escapeTextWrite s = _
  rw [escapeTextWrite_eq_policy]
  exact applyCharPolicy_congr _ _ text_needle_eq_policy s

theorem escapeAttrWrite_nil : escapeAttrWrite [] = [] := by
  simp [escapeAttrWrite]

theorem escapeAttrWrite_cons (c : Char) (rest : List Char) :
    escapeAttrWrite (c :: rest) =
      (if c = '<' ∨ c = '&' ∨ c = '>' ∨ c = apos ∨ c = quot then escape_chr c else [c])
        ++ escapeAttrWrite rest := by
  by_cases hc : c = '<' ∨ c = '&' ∨ c = '>' ∨ c = apos ∨ c = quot
  · have hs : split_attr (c :: rest) = 0 := by simp [split_attr, hc]
    rw [escapeAttrWrite.eq_def]
    simp [hs, hc]
  · have hs : split_attr (c :: rest) = split_attr rest + 1 := by simp [split_attr, hc]
    rw [escapeAttrWrite.eq_def]
    simp only [List.cons_ne_nil, dite_false, hs, List.getElem?_cons_succ,
      List.take_succ_cons, List.drop_succ_cons, if_neg hc]
    cases hr : rest[split_attr rest]? with
    | some chr =>
      have hrest : rest ≠ [] := by
        intro h
        subst h
        simp at hr
      conv_rhs => rw [escapeAttrWrite.eq_def]
      simp [hrest, hr]
    | none =>
      have hrw : escapeAttrWrite rest = rest.take (split_attr rest) := by
        cases rest with
        | nil => simp [escapeAttrWrite_nil]
        | cons d ds =>
          rw [escapeAttrWrite.eq_def]
          simp [hr]
      rw [hrw]
      simp

theorem escapeAttrWrite_eq_policy (s : List Char) :
    escapeAttrWrite s =
      applyCharPolicy
        (fun c => if c = '<' ∨ c = '&' ∨ c = '>' ∨ c = apos ∨ c = quot then escape_chr c else [c])
        s := by
  induction s with
  | nil => simp [escapeAttrWrite_nil, applyCharPolicy]
  | cons c rest ih => rw [escapeAttrWrite_cons, ih]; simp [applyCharPolicy]

theorem attr_needle_eq_policy (c : Char) :
    (if c = '<' ∨ c = '&' ∨ c = '>' ∨ c = apos ∨ c = quot then escape_chr c else [c])
      = attrValuePolicySpec c := by
  by_cases h1 : c = '<'
  · subst h1; decide
  · by_cases h2 : c = '&'
    · subst h2; decide
    · by_cases h3 : c = '>'
      · subst h3; decide
      · by_cases h4 : c = apos
        · subst h4; decide
        · by_cases h5 : c = quot
          · subst h5; decide
          · have h : ¬(c = '<' ∨ c = '&' ∨ c = '>' ∨ c = apos ∨ c = quot) := by tauto
            rw [if_neg h]
            unfold attrValuePolicySpec
            rw [if_neg h1, if_neg h2, if_neg h3, if_neg h4, if_neg h5]

theorem escape_AttributeValue_eq_policy (s : List Char) :
    escape .AttributeValue s = applyCharPolicy attrValuePolicySpec s := by
  show escapeAttrWrite s = _
  rw [escapeAttrWrite_eq_policy]
  exact applyCharPolicy_congr _ _ attr_needle_eq_policy s

/-- Claim C1: escaping a string in the Text context replaces every `<` by
`&lt;`, every `&` by `&amp;` and every `>` by `&gt;`, and passes every other
character through unchanged, including the apostrophe and the double quote;
in particular escaping `<&>` yields `&lt;&amp;&gt;`. -/
theorem text_context_escapes_exactly_lt_amp_gt :
    (∀ s : List Char, escape .Text s = applyCharPolicy textPolicySpec s)
    ∧ escape .Text ('<' :: '&' :: '>' :: []) = "&lt;&amp;&gt;".data
    ∧ escape .Text [apos] = [apos]
    ∧ escape .Text [quot] = [quot] := by
  refine ⟨escape_Text_eq_policy, ?_, ?_, ?_⟩ <;> rw [escape_Text_eq_policy] <;> decide

/-- Claim C2: escaping a string in the AttributeValue context replaces every
`<`, `&`, `>`, apostrophe and double quote by its entity and passes every
other character through unchanged; in particular escaping the five-character
string made of `<`, `&`, `>`, the apostrophe and the double quote yields
`&lt;&amp;&gt;&apos;&quot;`. -/
theorem attrvalue_context_escapes_all_five :
    (∀ s : List Char, escape .AttributeValue s = applyCharPolicy attrValuePolicySpec s)
    ∧ escape .AttributeValue ('<' :: '&' :: '>' :: apos :: quot :: [])
        = "&lt;&amp;&gt;&apos;&quot;".data := by
  refine ⟨escape_AttributeValue_eq_policy, ?_⟩
  rw [escape_AttributeValue_eq_policy]
  decide

/-- Boolean contiguous-substring test: `hasSubB needle l` is true exactly when
`needle` occurs as a contiguous run inside `l` (see `hasSubB_iff`). -/
def hasSubB (needle : List Char) : List Char → Bool
  | [] => needle.isEmpty
  | c :: rest => needle.isPrefixOf (c :: rest) || hasSubB needle rest

theorem hasSubB_iff (needle l : List Char) :
    hasSubB needle l = true ↔ ∃ a b, l = a ++ needle ++ b := by
  induction l with
  | nil =>
    simp only [hasSubB, List.isEmpty_iff]
    constructor
    · rintro rfl
      exact ⟨[], [], rfl⟩
    · rintro ⟨a, b, h⟩
      rcases List.append_eq_nil.mp h.symm with ⟨h1, -⟩
      exact (List.append_eq_nil.mp h1).2
  | cons c rest ih =>
    simp only [hasSubB, Bool.or_eq_true, List.isPrefixOf_iff_prefix, ih]
    constructor
    · rintro (⟨t, ht⟩ | ⟨a, b, hab⟩)
      · exact ⟨[], t, by simp [← ht]⟩
      · exact ⟨c :: a, b, by simp [hab]⟩
    · rintro ⟨a, b, hab⟩
      cases a with
      | nil =>
        exact Or.inl ⟨b, by simpa using hab.symm⟩
      | cons a0 a' =>
        rcases List.cons_eq_cons.mp hab with ⟨-, htl⟩
        exact Or.inr ⟨a', b, htl⟩

theorem escapeCommentWrite_cons_nomatch (c : Char) (l : List Char)
    (h : ¬(['-', '-'].isPrefixOf (c :: l) = true)) :
    escapeCommentWrite (c :: l) = c :: escapeCommentWrite l := by
  cases l with
  | nil => simp [escapeCommentWrite]
  | cons c2 rest =>
    have hne : ¬(c = '-' ∧ c2 = '-') := by
      rintro ⟨rfl, rfl⟩
      simp [List.isPrefixOf] at h
    simp [escapeCommentWrite, hne]

theorem escapeCommentWrite_id (s : List Char)
    (h : hasSubB ['-', '-'] s = false) : escapeCommentWrite s = s := by
  induction s with
  | nil => rfl
  | cons c rest ih =>
    rw [hasSubB, Bool.or_eq_false_iff] at h
    rw [escapeCommentWrite_cons_nomatch c rest (by simp [h.1]), ih h.2]

theorem escapeCharDataWrite_cons_nomatch (c : Char) (l : List Char)
    (h : ¬((']' :: ']' :: '>' :: []).isPrefixOf (c :: l) = true)) :
    escapeCharDataWrite (c :: l) = c :: escapeCharDataWrite l := by
  cases l with
  | nil => simp [escapeCharDataWrite]
  | cons c2 rest2 =>
    cases rest2 with
    | nil => simp [escapeCharDataWrite]
    | cons c3 rest =>
      have hne : ¬(c = ']' ∧ c2 = ']' ∧ c3 = '>') := by
        rintro ⟨rfl, rfl, rfl⟩
        simp [List.isPrefixOf] at h
      simp [escapeCharDataWrite, hne]

theorem escapeCharDataWrite_id (s : List Char)
    (h : hasSubB (']' :: ']' :: '>' :: []) s = false) : escapeCharDataWrite s = s := by
  induction s with
  | nil => rfl
  | cons c rest ih =>
    rw [hasSubB, Bool.or_eq_false_iff] at h
    rw [escapeCharDataWrite_cons_nomatch c rest (by simp [h.1]), ih h.2]

theorem escapeCommentWrite_remove (a b : List Char)
    (h : hasSubB ['-', '-'] (a ++ ['-']) = false) :
    escapeCommentWrite (a ++ '-' :: '-' :: b) = a ++ escapeCommentWrite b := by
  induction a with
  | nil => simp [escapeCommentWrite]
  | cons c a' ih =>
    rw [List.cons_append, hasSubB, Bool.or_eq_false_iff] at h
    have hp : ¬(['-', '-'].isPrefixOf (c :: (a' ++ '-' :: '-' :: b)) = true) := by
      cases a' with
      | nil =>
        have hc : ¬('-' == c) = true := by
          intro hcc
          simp [List.isPrefixOf, hcc] at h
        simp [List.isPrefixOf, hc]
      | cons d a'' =>
        intro hcc
        apply absurd h.1
        simp only [List.cons_append, List.isPrefixOf] at hcc ⊢
        simpa using hcc
    rw [List.cons_append, escapeCommentWrite_cons_nomatch _ _ hp, ih h.2, List.cons_append]

theorem escapeCharDataWrite_replace (a b : List Char)
    (h : hasSubB (']' :: ']' :: '>' :: []) a = false) :
    escapeCharDataWrite (a ++ ']' :: ']' :: '>' :: b)
      = a ++ cdataReplacement ++ escapeCharDataWrite b := by
  induction a with
  | nil => simp [escapeCharDataWrite]
  | cons c a' ih =>
    rw [hasSubB, Bool.or_eq_false_iff] at h
    have hgt : (('>' : Char) == ']') = false := by decide
    have hp : ¬((']' :: ']' :: '>' :: []).isPrefixOf (c :: (a' ++ ']' :: ']' :: '>' :: b)) = true) := by
      cases a' with
      | nil => simp [List.isPrefixOf, hgt]
      | cons d a'' =>
        cases a'' with
        | nil => simp [List.isPrefixOf, hgt]
        | cons e a''' =>
          intro hcc
          apply absurd h.1
          simp only [List.cons_append, List.isPrefixOf] at hcc ⊢
          simpa using hcc
    rw [List.cons_append, escapeCharDataWrite_cons_nomatch _ _ hp, ih h.2]
    simp

/-- Claim C4: escaping a string as one unit in the Comment context removes
every (leftmost, non-overlapping) occurrence of the substring `--` and inserts
no entity in its place; in particular `a--b` escapes to `ab` and `--` escapes
to the empty string.  The first conjunct pins down the meaning of the
substring test used in the side condition. -/
theorem comment_context_deletes_double_dash :
    (∀ l : List Char, hasSubB ['-', '-'] l = true ↔ ∃ x y, l = x ++ ['-', '-'] ++ y)
    ∧ (∀ a b : List Char, hasSubB ['-', '-'] (a ++ ['-']) = false →
        escape .Comment (a ++ '-' :: '-' :: b) = a ++ escape .Comment b)
    ∧ escape .Comment ('a' :: '-' :: '-' :: 'b' :: []) = ('a' :: 'b' :: [])
    ∧ escape .Comment ('-' :: '-' :: []) = [] := by
  refine ⟨fun l => hasSubB_iff _ l, fun a b h => escapeCommentWrite_remove a b h, ?_, ?_⟩ <;>
    decide

/-- Verifies `comment_context_deletes_double_dash` on a concrete input,
discharging its side condition there. -/
theorem comment_context_deletes_double_dash_witness :
    escape .Comment (('x' :: []) ++ '-' :: '-' :: ('y' :: []))
      = ('x' :: []) ++ escape .Comment ('y' :: []) :=
  comment_context_deletes_double_dash.2.1 ('x' :: []) ('y' :: []) (by decide)

/-- Claim C5: escaping a string as one unit in the CData context replaces
every (leftmost, non-overlapping) occurrence of the substring `]]>` with
`]]]]><![CDATA[>` and leaves the rest unchanged; in particular `]]>` escapes
to `]]]]><![CDATA[>`. -/
theorem cdata_context_splits_sections :
    (∀ l : List Char, hasSubB (']' :: ']' :: '>' :: []) l = true
        ↔ ∃ x y, l = x ++ (']' :: ']' :: '>' :: []) ++ y)
    ∧ (∀ a b : List Char, hasSubB (']' :: ']' :: '>' :: []) a = false →
        escape .CData (a ++ ']' :: ']' :: '>' :: b)
          = a ++ cdataReplacement ++ escape .CData b)
    ∧ cdataReplacement = "]]]]><![CDATA[>".data
    ∧ escape .CData (']' :: ']' :: '>' :: []) = "]]]]><![CDATA[>".data := by
  refine ⟨fun l => hasSubB_iff _ l, fun a b h => escapeCharDataWrite_replace a b h, ?_, ?_⟩ <;>
    decide

/-- Verifies `cdata_context_splits_sections` on a concrete input, discharging
its side condition there. -/
theorem cdata_context_splits_sections_witness :
    escape .CData (('a' :: []) ++ ']' :: ']' :: '>' :: ('b' :: []))
      = ('a' :: []) ++ cdataReplacement ++ escape .CData ('b' :: []) :=
  cdata_context_splits_sections.2.1 ('a' :: []) ('b' :: []) (by decide)

/-- Claim C7: for each context, escaping a string that contains none of the
context's reserved characters or substrings returns it unchanged. -/
theorem escape_identity_on_safe_input :
    (∀ s : List Char, (∀ c ∈ s, ¬(c = '<' ∨ c = '&' ∨ c = '>')) → escape .Text s = s)
    ∧ (∀ s : List Char,
        (∀ c ∈ s, ¬(c = '<' ∨ c = '&' ∨ c = '>' ∨ c = apos ∨ c = quot)) →
        escape .AttributeValue s = s)
    ∧ (∀ s : List Char, hasSubB ['-', '-'] s = false → escape .Comment s = s)
    ∧ (∀ s : List Char, hasSubB (']' :: ']' :: '>' :: []) s = false → escape .CData s = s) := by
  refine ⟨?_, ?_, fun s h => escapeCommentWrite_id s h, fun s h => escapeCharDataWrite_id s h⟩
  · intro s hs
    show escapeTextWrite s = s
    induction s with
    | nil => exact escapeTextWrite_nil
    | cons c rest ih =>
      rw [escapeTextWrite_cons, if_neg (hs c (List.mem_cons_self c rest)),
        ih (fun c hc => hs c (List.mem_cons_of_mem _ hc))]
      rfl
  · intro s hs
    show escapeAttrWrite s = s
    induction s with
    | nil => exact escapeAttrWrite_nil
    | cons c rest ih =>
      rw [escapeAttrWrite_cons, if_neg (hs c (List.mem_cons_self c rest)),
        ih (fun c hc => hs c (List.mem_cons_of_mem _ hc))]
      rfl

/-- Verifies `escape_identity_on_safe_input` on concrete safe inputs for all
four contexts, discharging the safety side conditions there. -/
theorem escape_identity_on_safe_input_witness :
    escape .Text ('h' :: 'i' :: []) = ('h' :: 'i' :: [])
    ∧ escape .AttributeValue ('h' :: 'i' :: []) = ('h' :: 'i' :: [])
    ∧ escape .Comment ('a' :: '-' :: 'b' :: []) = ('a' :: '-' :: 'b' :: [])
    ∧ escape .CData (']' :: ']' :: []) = (']' :: ']' :: []) :=
  ⟨escape_identity_on_safe_input.1 _ (by decide),
   escape_identity_on_safe_input.2.1 _ (by decide),
   escape_identity_on_safe_input.2.2.1 _ (by decide),
   escape_identity_on_safe_input.2.2.2 _ (by decide)⟩

/-- Claim C8: a `--` (resp. `]]>`) straddling the boundary between two
separate writes through the Comment (resp. CData) escaper is left in the
output, unlike escaping the concatenation in one call: writing `-` then `-`
emits `--` although one-call escaping of `--` emits nothing, and writing `]]`
then `>` emits `]]>` although one-call escaping replaces it. -/
theorem incremental_comment_cdata_escaping_misses_straddling :
    escape .Comment ('-' :: []) ++ escape .Comment ('-' :: []) = ('-' :: '-' :: [])
    ∧ escape .Comment ('-' :: '-' :: []) = []
    ∧ ('-' :: '-' :: [] : List Char) ≠ []
    ∧ escape .CData (']' :: ']' :: []) ++ escape .CData ('>' :: []) = (']' :: ']' :: '>' :: [])
    ∧ escape .CData (']' :: ']' :: '>' :: []) = cdataReplacement
    ∧ (']' :: ']' :: '>' :: [] : List Char) ≠ cdataReplacement := by
  decide

/-- Claim C9: for the Text and AttributeValue contexts, escaping is a
homomorphism over concatenation, so writing a string in two separate calls
produces exactly the same output as one call on the concatenation. -/
theorem text_attr_escaping_concat_hom :
    ∀ s1 s2 : List Char,
      escape .Text (s1 ++ s2) = escape .Text s1 ++ escape .Text s2
      ∧ escape .AttributeValue (s1 ++ s2)
          = escape .AttributeValue s1 ++ escape .AttributeValue s2 := by
  have happ : ∀ (f : Char → List Char) (s1 s2 : List Char),
      applyCharPolicy f (s1 ++ s2) = applyCharPolicy f s1 ++ applyCharPolicy f s2 := by
    intro f s1 s2
    induction s1 with
    | nil => rfl
    | cons c rest ih => simp [applyCharPolicy, ih]
  intro s1 s2
  constructor
  · rw [escape_Text_eq_policy, escape_Text_eq_policy, escape_Text_eq_policy, happ]
  · rw [escape_AttributeValue_eq_policy, escape_AttributeValue_eq_policy,
      escape_AttributeValue_eq_policy, happ]

/-- Embeds `escape_w` from `src/util.rs` (the behavior shared by `escape` in
`src/html.rs`, the `Escape` wrapper and the `escape!` macro): a per-character
loop replacing each of `&`, `<`, `>`, the apostrophe and the double quote with
its entity, in that match order, and writing every other character unchanged. -/
def escape_w : List Char → List Char
  | [] => []
  | chr :: rest =>
    (if chr = '&' then "&amp;".data
     else if chr = '<' then "&lt;".data
     else if chr = '>' then "&gt;".data
     else if chr = apos then "&apos;".data
     else if chr = quot then "&quot;".data
     else [chr]) ++ escape_w rest

theorem escape_w_char_eq_policy (c : Char) :
    (if c = '&' then "&amp;".data
     else if c = '<' then "&lt;".data
     else if c = '>' then "&gt;".data
     else if c = apos then "&apos;".data
     else if c = quot then "&quot;".data
     else [c]) = attrValuePolicySpec c := by
  by_cases h1 : c = '&'
  · subst h1; decide
  · by_cases h2 : c = '<'
    · subst h2; decide
    · by_cases h3 : c = '>'
      · subst h3; decide
      · by_cases h4 : c = apos
        · subst h4; decide
        · by_cases h5 : c = quot
          · subst h5; decide
          · rw [if_neg h1, if_neg h2, if_neg h3, if_neg h4, if_neg h5]
            unfold attrValuePolicySpec
            rw [if_neg h2, if_neg h1, if_neg h3, if_neg h4, if_neg h5]

theorem escape_w_eq_attr (s : List Char) : escape_w s = escape .AttributeValue s := by
  rw [escape_AttributeValue_eq_policy]
  induction s with
  | nil => rfl
  | cons c rest ih =>
    show _ ++ escape_w rest = attrValuePolicySpec c ++ applyCharPolicy attrValuePolicySpec rest
    rw [escape_w_char_eq_policy, ih]

/-- Claim C10: the standalone escape helper (`escape` / `Escape` / `escape!`)
always replaces all five of `&`, `<`, `>`, the apostrophe and the double quote
for every input — it coincides with the AttributeValue policy — and in
particular escapes the apostrophe and double quote even though the Text
context policy leaves them unchanged. -/
theorem escape_helper_always_escapes_all_five :
    (∀ s : List Char, escape_w s = escape .AttributeValue s)
    ∧ escape_w (apos :: quot :: []) = "&apos;&quot;".data
    ∧ escape .Text (apos :: quot :: []) = (apos :: quot :: []) := by
  refine ⟨escape_w_eq_attr, by decide, ?_⟩
  rw [escape_Text_eq_policy]
  decide

/-- Embeds the emit sequence that `xfmt!` produces for the template
`<p data-value={v}>{t}</p>` (rules `__xfmt`, `__xfmt_attrs` and
`__xfmt_attrvalue` in `src/xfmt.rs`): literal pieces are written verbatim, the
attribute interpolation is written through `EscapeAttrValue`, and the element
text interpolation through `EscapeText`. -/
def xfmtPDataValue (v t : List Char) : List Char :=
  "<p data-value=\"".data ++ escape .AttributeValue v ++ "\">".data
    ++ escape .Text t ++ "</p>".data

/-- Claim C3: rendering `<p data-value={v}>{t}</p>` with `v` a double-quoted
word and `t` a script tag yields exactly the output in which the attribute
value was escaped with the AttributeValue policy and the element text with the
Text policy. -/
theorem xfmt_attrvalue_and_text_escaping :
    xfmtPDataValue "\"quote\"".data "<script>&</script>".data
      = "<p data-value=\"&quot;quote&quot;\">&lt;script&gt;&amp;&lt;/script&gt;</p>".data := by
  unfold xfmtPDataValue
  rw [escape_AttributeValue_eq_policy, escape_Text_eq_policy]
  decide

/-- Embeds the tag-closing emission of `__xfmt_close_tag` in `src/xfmt.rs` and
`_format_tag2_` in `src/xml_impl.rs`: a self-closing tag is terminated by a
single space followed by `/>`, a normal open tag by `>` alone. -/
def closeTagEmit (selfClosing : Bool) : List Char :=
  if selfClosing then " />".data else ">".data

/-- Embeds the emit sequence that `xfmt!` produces for the template
`<line x1="0" y1="0" x2={x2} y2={y2} />`: literal attribute values are written
verbatim between quotes, interpolated attribute values through
`EscapeAttrValue`, and the tag is terminated by `closeTagEmit true`. -/
def xfmtLineTag (x2 y2 : List Char) : List Char :=
  "<line x1=\"0\" y1=\"0\" x2=\"".data ++ escape .AttributeValue x2 ++ "\" y2=\"".data
    ++ escape .AttributeValue y2 ++ "\"".data ++ closeTagEmit true

/-- Claim C6: a self-closing tag renders as `<name ... />` with exactly one
space before `/>` and a non-self-closing open tag as `<name ...>` with no
space; rendering `<line x1="0" y1="0" x2={10} y2={20} />` yields exactly
`<line x1="0" y1="0" x2="10" y2="20" />`. -/
theorem self_closing_tag_single_space :
    closeTagEmit true = (' ' :: '/' :: '>' :: [])
    ∧ closeTagEmit false = ('>' :: [])
    ∧ xfmtLineTag (Nat.repr 10).data (Nat.repr 20).data
        = "<line x1=\"0\" y1=\"0\" x2=\"10\" y2=\"20\" />".data := by
  refine ⟨by decide, by decide, ?_⟩
  unfold xfmtLineTag
  rw [escape_AttributeValue_eq_policy, escape_AttributeValue_eq_policy]
  decide

end FormatXml
